import Mathlib

/-
A verification development for the SharedTree default-edit `Transaction`
(the transaction interpreter that applies Build / Insert / Detach /
Constraint / SetValue changes to an immutable tree snapshot).

The interpreter itself (`applyBuild`, `applyInsert`, `applyDetach`,
`applyConstraint`, `applySetValue`, `dispatchChange`, `validateOnClose`,
`createSnapshotNodesForTree`, `getDetachedNodeIds`) is translated from the
source of `Transaction`.  The collaborator contracts the source imports
(the `Snapshot` read/copy-on-write interface, the place/range validation
primitives of `EditUtilities`, and the `GenericTransaction` driver) are not
part of the given source tree and are modelled from the specification,
as marked on each definition.

Identifiers, trait labels, definitions and payloads are opaque values in
the specification; they are represented by `Nat` here.  JavaScript `Map`s
are represented by association lists (key unique by construction), and the
mutable fields of the transaction object by explicit state records.
-/

abbrev NodeId := Nat
abbrev DetachedSequenceId := Nat
abbrev TraitLabel := Nat
abbrev NodeDefinition := Nat
abbrev Payload := Nat

/-- The per-node record stored in a snapshot (`SnapshotNode` in the source):
identifier, definition, named child lists, and an optional payload. -/
structure SnapshotNode where
  identifier : NodeId
  definition : NodeDefinition
  traits : List (TraitLabel × List NodeId)
  payload : Option Payload
deriving DecidableEq, Repr

/-- Modelled from the spec: a `Snapshot` is an immutable tree, "a mapping
from NodeId to SnapshotNode plus a designated root".  The mapping is an
association list with unique keys. -/
structure Snapshot where
  root : NodeId
  nodes : List (NodeId × SnapshotNode)
deriving DecidableEq, Repr

/-- Modelled from the spec: `hasNode(id) → bool`. -/
def Snapshot.hasNode (s : Snapshot) (id : NodeId) : Bool :=
  (s.nodes.lookup id).isSome

/-- Modelled from the spec: `getSnapshotNode(id)` with precondition
`hasNode(id)`; made total here by returning an `Option`. -/
def Snapshot.getSnapshotNode? (s : Snapshot) (id : NodeId) : Option SnapshotNode :=
  s.nodes.lookup id

/-- Modelled from the spec: `insertSnapshotNodes(map)` returns a new
snapshot with the nodes added (none may already exist). -/
def Snapshot.insertSnapshotNodes (s : Snapshot) (m : List (NodeId × SnapshotNode)) : Snapshot :=
  { s with nodes := s.nodes ++ m }

/-- Modelled from the spec: `deleteNodes(ids)` returns a new snapshot with
those nodes (and nothing else) removed. -/
def Snapshot.deleteNodes (s : Snapshot) (ids : List NodeId) : Snapshot :=
  { s with nodes := s.nodes.filter (fun p => !(ids.contains p.1)) }

/-- Modelled from the spec: `replaceNodeData(id, node)` returns a new
snapshot with the record for `id` replaced. -/
def Snapshot.replaceNodeData (s : Snapshot) (id : NodeId) (n : SnapshotNode) : Snapshot :=
  { s with nodes := s.nodes.map (fun p => if p.1 == id then (p.1, n) else p) }

/-- The child list stored under `label` of `parent` (empty when the parent
or the label is absent).  Modelled from the spec's trait navigation. -/
def Snapshot.getTrait (s : Snapshot) (parent : NodeId) (label : TraitLabel) : List NodeId :=
  match s.nodes.lookup parent with
  | none => []
  | some n => (n.traits.lookup label).getD []

/-- Replace-or-add a labelled child list inside a node's trait map. -/
def setTraitList (tr : List (TraitLabel × List NodeId)) (label : TraitLabel)
    (cs : List NodeId) : List (TraitLabel × List NodeId) :=
  match tr with
  | [] => [(label, cs)]
  | (l, old) :: rest =>
      if l == label then (l, cs) :: rest else (l, old) :: setTraitList rest label cs

/-- Modelled from the spec: the snapshot's per-trait child-list edit used by
the detach/insert primitives; only the record of `parent` changes. -/
def Snapshot.setTrait (s : Snapshot) (parent : NodeId) (label : TraitLabel)
    (cs : List NodeId) : Snapshot :=
  { s with
    nodes := s.nodes.map (fun p =>
      if p.1 == parent then (p.1, { p.2 with traits := setTraitList p.2.traits label cs }) else p) }

/-- The payload field of a node's record, when the node exists. -/
def Snapshot.getPayload (s : Snapshot) (id : NodeId) : Option Payload :=
  match s.nodes.lookup id with
  | none => none
  | some n => n.payload

/-- Whether the node's record carries a payload field. -/
def Snapshot.hasPayload (s : Snapshot) (id : NodeId) : Bool :=
  (s.getPayload id).isSome

/-- Modelled from the spec: parent lookup provided by the Snapshot — the
trait (parent node and label) whose child list contains `id`, if any. -/
def Snapshot.findParent (s : Snapshot) (id : NodeId) : Option (NodeId × TraitLabel) :=
  s.nodes.findSome? (fun p =>
    p.2.traits.findSome? (fun t => if t.2.contains id then some (p.1, t.1) else none))

/-- The `EditNode` input fragment: either a reference to a previously produced
detached sequence, or an inline node whose children may again be edit nodes.
The source discriminates the two shapes with `isDetachedSequenceId`; here the
constructor is the tag. -/
inductive EditNode : Type where
  | ref (id : DetachedSequenceId)
  | node (identifier : NodeId) (definition : NodeDefinition)
      (traits : List (TraitLabel × List EditNode)) (payload : Option Payload)

/-- The three-valued result of applying a change or closing an edit
(`EditResult` in the source). -/
inductive EditResult : Type where
  | malformed
  | invalid
  | applied
deriving DecidableEq, Repr

/-- The three-valued classification of a stable place or range against a
snapshot (`EditValidationResult` in the source). -/
inductive EditValidationResult : Type where
  | malformed
  | invalid
  | valid
deriving DecidableEq, Repr

/-- Sidedness of a stable place relative to its anchor. -/
inductive Side : Type where
  | before
  | after
deriving DecidableEq, Repr

/-- A trait location: explicit parent node and label. -/
structure TraitLocation where
  parent : NodeId
  label : TraitLabel
deriving DecidableEq, Repr

/-- Modelled from the spec: a `StablePlace` is "an anchor node plus a side
(Before / After), or a trait-endpoint sentinel (Start / End of trait with
explicit parent+label)"; represented as in the persisted format with two
optional reference fields, exactly one of which is meant to be present. -/
structure StablePlace where
  side : Side
  referenceSibling : Option NodeId
  referenceTrait : Option TraitLocation
deriving DecidableEq, Repr

/-- A stable range: an ordered pair of stable places.  The source names the
second field `end`, which is a Lean keyword; it is `endPlace` here. -/
structure StableRange where
  start : StablePlace
  endPlace : StablePlace
deriving DecidableEq, Repr

/-- A place resolved against a snapshot: its containing trait, the side, and
the anchor sibling when the place is sibling-relative. -/
structure SnapshotPlace where
  trait : TraitLocation
  side : Side
  sibling : Option NodeId
deriving DecidableEq, Repr

/-- A range resolved against a snapshot.  The source names the second field
`end`, which is a Lean keyword; it is `endPlace` here. -/
structure SnapshotRange where
  start : SnapshotPlace
  endPlace : SnapshotPlace
deriving DecidableEq, Repr

/-- Modelled from the spec: `validateStablePlace` classifies a place as
Valid / Invalid / Malformed.  Malformed when the place does not carry
exactly one of its two reference fields; Invalid when the referenced
anchor cannot be resolved against the view (a sibling with no parent
trait, or an absent trait parent); Valid otherwise. -/
def validateStablePlace (s : Snapshot) (p : StablePlace) : EditValidationResult :=
  match p.referenceSibling, p.referenceTrait with
  | some _, some _ => .malformed
  | none, none => .malformed
  | some sib, none =>
      match s.findParent sib with
      | some _ => .valid
      | none => .invalid
  | none, some t => if s.hasNode t.parent then .valid else .invalid

/-- Modelled from the spec: resolve a stable place to its containing trait;
`none` exactly when `validateStablePlace` is not Valid. -/
def resolveStablePlace (s : Snapshot) (p : StablePlace) : Option SnapshotPlace :=
  match p.referenceSibling, p.referenceTrait with
  | some sib, none => (s.findParent sib).map (fun tl => ⟨⟨tl.1, tl.2⟩, p.side, some sib⟩)
  | none, some t => if s.hasNode t.parent then some ⟨t, p.side, none⟩ else none
  | _, _ => none

/-- Modelled from the spec: `findIndexWithinTrait(place)` — the integer
offset of a resolved place within its containing trait.  A sibling-relative
place sits at the sibling's index (Before) or one past it (After); a
trait-endpoint place sits at 0 (Start, encoded side After) or at the trait
length (End, encoded side Before). -/
def Snapshot.findIndexWithinTrait (s : Snapshot) (p : SnapshotPlace) : Nat :=
  let children := s.getTrait p.trait.parent p.trait.label
  match p.sibling with
  | some sib => children.indexOf sib + (match p.side with | .after => 1 | .before => 0)
  | none => match p.side with | .after => 0 | .before => children.length

/-- Modelled from the spec: `validateStableRange` classifies a range:
a malformed or invalid endpoint reports that classification (start first);
endpoints that resolve to different traits, or out of order, are Invalid;
otherwise Valid. -/
def validateStableRange (s : Snapshot) (r : StableRange) : EditValidationResult :=
  match validateStablePlace s r.start with
  | .malformed => .malformed
  | .invalid => .invalid
  | .valid =>
    match validateStablePlace s r.endPlace with
    | .malformed => .malformed
    | .invalid => .invalid
    | .valid =>
      match resolveStablePlace s r.start, resolveStablePlace s r.endPlace with
      | some ps, some pe =>
          if ps.trait = pe.trait ∧ s.findIndexWithinTrait ps ≤ s.findIndexWithinTrait pe
          then .valid else .invalid
      | _, _ => .invalid

/-- Modelled from the spec: `rangeFromStableRange` resolves both endpoints;
only called after the range validated as Valid, so the fallback default is
never reached on those calls. -/
def rangeFromStableRange (s : Snapshot) (r : StableRange) : SnapshotRange :=
  { start := (resolveStablePlace s r.start).getD ⟨⟨0, 0⟩, .before, none⟩,
    endPlace := (resolveStablePlace s r.endPlace).getD ⟨⟨0, 0⟩, .before, none⟩ }

/-- Result record of `detachRange`: the residual snapshot and the removed
node-id sequence, mirroring the source's `{ snapshot, detached }`. -/
structure DetachResult where
  snapshot : Snapshot
  detached : List NodeId
deriving DecidableEq, Repr

/-- Modelled from the spec: `detachRange` removes the contiguous run the
range designates from its trait, "returning the residual snapshot and the
ordered node-id list"; the node records themselves stay in the snapshot's
id map. -/
def detachRange (s : Snapshot) (r : StableRange) : DetachResult :=
  let rr := rangeFromStableRange s r
  let tl := rr.start.trait
  let children := s.getTrait tl.parent tl.label
  let si := s.findIndexWithinTrait rr.start
  let ei := s.findIndexWithinTrait rr.endPlace
  { snapshot := s.setTrait tl.parent tl.label (children.take si ++ children.drop ei),
    detached := (children.drop si).take (ei - si) }

/-- Modelled from the spec: `insertIntoTrait` splices the id sequence at the
position resolved from the stable place, preserving order; only called after
the place validated as Valid, so the fallback branch is never reached on
those calls. -/
def insertIntoTrait (s : Snapshot) (ids : List NodeId) (p : StablePlace) : Snapshot :=
  match resolveStablePlace s p with
  | none => s
  | some sp =>
    let children := s.getTrait sp.trait.parent sp.trait.label
    let i := s.findIndexWithinTrait sp
    s.setTrait sp.trait.parent sp.trait.label (children.take i ++ ids ++ children.drop i)

/-- The transaction's private registry of detached sequences
(`Map<DetachedSequenceId, readonly NodeId[]>` in the source), as an
association list whose keys stay unique by construction. -/
abbrev Registry := List (DetachedSequenceId × List NodeId)

/-- Models `Map.get`. -/
def Registry.get? (r : Registry) (k : DetachedSequenceId) : Option (List NodeId) :=
  r.lookup k

/-- Models `Map.has`. -/
def Registry.hasKey (r : Registry) (k : DetachedSequenceId) : Bool :=
  (r.lookup k).isSome

/-- Models `Map.set`: overwrite in place when the key exists, append otherwise. -/
def Registry.setKey (r : Registry) (k : DetachedSequenceId) (v : List NodeId) : Registry :=
  if r.hasKey k then r.map (fun p => if p.1 == k then (p.1, v) else p) else r ++ [(k, v)]

/-- Models `Map.delete`: remove the entry for `k` (filtering, which under unique
keys removes exactly the one entry). -/
def Registry.removeKey (r : Registry) (k : DetachedSequenceId) : Registry :=
  r.filter (fun p => !(p.1 == k))

/-- The five change kinds' payload records (`PersistedTypes` in the source;
field shapes per the spec's persisted change format). -/
structure BuildChange where
  source : List EditNode
  destination : DetachedSequenceId

/-- Insert: move a detached sequence to a place in the tree. -/
structure InsertChange where
  source : DetachedSequenceId
  destination : StablePlace
deriving DecidableEq, Repr

/-- Detach: remove a range, optionally storing it as a detached sequence. -/
structure DetachChange where
  source : StableRange
  destination : Option DetachedSequenceId
deriving DecidableEq, Repr

/-- What a constraint violation does to the edit. -/
inductive ConstraintEffect : Type where
  | validRetry
  | invalidRetry
deriving DecidableEq, Repr

/-- Constraint: assert properties of a range without mutating the view. -/
structure ConstraintChange where
  toConstrain : StableRange
  effect : ConstraintEffect
  length : Option Nat
  parentNode : Option NodeId
  label : Option TraitLabel
  identityHash : Option Nat
  contentHash : Option Nat
deriving DecidableEq, Repr

/-- SetValue: replace or clear a node's payload.  `none` is the explicit
null sentinel (clear); `some p` sets the payload to `p`. -/
structure SetValueChange where
  nodeToModify : NodeId
  payload : Option Payload
deriving DecidableEq, Repr

/-- The tagged `Change` variant the interpreter dispatches on. -/
inductive Change : Type where
  | build (b : BuildChange)
  | insert (i : InsertChange)
  | detach (d : DetachChange)
  | constraint (c : ConstraintChange)
  | setValue (s : SetValueChange)

/-- The mutable state of a `Transaction` while it applies changes: the
evolving view (`this._view`) and the detached-sequence registry
(`this.detached`). -/
structure TxState where
  view : Snapshot
  detached : Registry
deriving DecidableEq, Repr

/-- The mutable context of one `createSnapshotNodesForTree` run inside
`applyBuild`: the registry (read and consumed by `getDetachedNodeIds`),
the local map of created snapshot nodes, and the three failure flags the
`applyBuild` callbacks set. -/
structure BuildCtx where
  detached : Registry
  map : List (NodeId × SnapshotNode)
  idAlreadyPresent : Bool
  duplicateIdInBuild : Bool
  detachedSequenceNotFound : Bool
deriving DecidableEq, Repr

/-- The `onCreateNode` callback `applyBuild` passes to
`createSnapshotNodesForTree`: flags a duplicate id in the build, then an id
already present in the view (halting creation by returning `true`), and
otherwise records the node in the local map. -/
def onCreateNode (view : Snapshot) (ctx : BuildCtx) (id : NodeId) (snapshotNode : SnapshotNode) :
    Bool × BuildCtx :=
  if (ctx.map.lookup id).isSome then (true, { ctx with duplicateIdInBuild := true })
  else if view.hasNode id then (true, { ctx with idAlreadyPresent := true })
  else (false, { ctx with map := ctx.map ++ [(id, snapshotNode)] })

/-- Source `Transaction.getDetachedNodeIds`: retrieve a detached sequence and
remove it from the registry ("remove it from the void to prevent a second
tree from multi-parenting it later"); on a miss, invoke the
`onInvalidDetachedId` callback, which in `applyBuild` sets the
`detachedSequenceNotFound` flag. -/
def getDetachedNodeIds (ctx : BuildCtx) (detachedId : DetachedSequenceId) :
    Option (List NodeId) × BuildCtx :=
  match ctx.detached.get? detachedId with
  | none => (none, { ctx with detachedSequenceNotFound := true })
  | some ids => (some ids, { ctx with detached := ctx.detached.removeKey detachedId })

/-- A worklist entry: the fields of an inline edit node.  The source pushes
whole `EditNode`s but only ever pushes inline ones (guarded by
`isDetachedSequenceId`), which the destructured tuple makes structural. -/
abbrev WorkNode := NodeId × NodeDefinition × List (TraitLabel × List EditNode) × Option Payload

/-- The first phase of `createSnapshotNodesForTree`: scan the top-level
sequence in order, expanding detached references (consuming them) into
`topLevelIds` and collecting inline nodes into the `unprocessed` worklist;
an unresolved reference aborts with `none`. -/
def scanSequence (ctx : BuildCtx) : List EditNode → Option (List NodeId × List WorkNode) × BuildCtx
  | [] => (some ([], []), ctx)
  | .ref d :: rest =>
      match getDetachedNodeIds ctx d with
      | (none, ctx1) => (none, ctx1)
      | (some ids, ctx1) =>
          match scanSequence ctx1 rest with
          | (none, ctx2) => (none, ctx2)
          | (some (tl, un), ctx2) => (some (ids ++ tl, un), ctx2)
  | .node i df tr p :: rest =>
      match scanSequence ctx rest with
      | (none, ctx1) => (none, ctx1)
      | (some (tl, un), ctx1) => (some (i :: tl, (i, df, tr, p) :: un), ctx1)

/-- One trait's child scan inside the worklist loop: expand detached
references (consuming them) and collect inline children's ids, returning
also the inline children to be pushed onto the worklist, in order. -/
def processChildren (ctx : BuildCtx) :
    List EditNode → Option (List NodeId × List WorkNode) × BuildCtx
  | [] => (some ([], []), ctx)
  | .ref d :: rest =>
      match getDetachedNodeIds ctx d with
      | (none, ctx1) => (none, ctx1)
      | (some ids, ctx1) =>
          match processChildren ctx1 rest with
          | (none, ctx2) => (none, ctx2)
          | (some (cids, pushed), ctx2) => (some (ids ++ cids, pushed), ctx2)
  | .node i df tr p :: rest =>
      match processChildren ctx rest with
      | (none, ctx1) => (none, ctx1)
      | (some (cids, pushed), ctx1) => (some (i :: cids, (i, df, tr, p) :: pushed), ctx1)

/-- The trait iteration of the worklist loop: resolve each labelled child
list in order into id lists, accumulating the inline children pushed onto
the worklist. -/
def processTraits (ctx : BuildCtx) :
    List (TraitLabel × List EditNode) →
    Option (List (TraitLabel × List NodeId) × List WorkNode) × BuildCtx
  | [] => (some ([], []), ctx)
  | (l, cs) :: rest =>
      match processChildren ctx cs with
      | (none, ctx1) => (none, ctx1)
      | (some (cids, pushed), ctx1) =>
          match processTraits ctx1 rest with
          | (none, ctx2) => (none, ctx2)
          | (some (traits, pushed2), ctx2) => (some ((l, cids) :: traits, pushed ++ pushed2), ctx2)

mutual
/-- Size of an edit node: the number of tree nodes in it (a reference
counts one). -/
def enSize : EditNode → Nat
  | .ref _ => 1
  | .node _ _ tr _ => 1 + traitsSize tr

/-- Total size of the edit nodes inside a trait map. -/
def traitsSize : List (TraitLabel × List EditNode) → Nat
  | [] => 0
  | (_, cs) :: rest => childrenSize cs + traitsSize rest

/-- Total size of a list of edit nodes. -/
def childrenSize : List EditNode → Nat
  | [] => 0
  | c :: rest => enSize c + childrenSize rest
end

/-- Fuel bound for the worklist loop: one unit per worklist node plus the
size of its subtrees, so that it strictly decreases across an iteration. -/
def wlMeasure : List WorkNode → Nat
  | [] => 0
  | (_, _, tr, _) :: rest => 1 + traitsSize tr + wlMeasure rest

/-- The `while (unprocessed.length > 0)` loop of
`createSnapshotNodesForTree`.  `Array.pop` takes the last element, so the
worklist here is kept in reversed order: the head is the top of the stack,
and freshly pushed children go `pushed.reverse ++ rest`.  The source loop
terminates because every iteration removes one tree node; here the same
bound is paid in `fuel` (the caller supplies `wlMeasure`-many units, which
cannot run out). -/
def buildLoop (view : Snapshot) : Nat → BuildCtx → List WorkNode → Option Unit × BuildCtx
  | 0, ctx, _ => (none, ctx)
  | _ + 1, ctx, [] => (some (), ctx)
  | fuel + 1, ctx, (i, df, tr, p) :: rest =>
      match processTraits ctx tr with
      | (none, ctx1) => (none, ctx1)
      | (some (traits, pushed), ctx1) =>
          match onCreateNode view ctx1 i ⟨i, df, traits, p⟩ with
          | (true, ctx2) => (none, ctx2)
          | (false, ctx2) => buildLoop view fuel ctx2 (pushed.reverse ++ rest)

/-- Source `Transaction.createSnapshotNodesForTree`: generate snapshot nodes from
the edit-node sequence, invoking the callbacks threaded in `ctx`; returns
all the top-level node ids, or `none` when creation halted early. -/
def createSnapshotNodesForTree (view : Snapshot) (ctx : BuildCtx) (sequence : List EditNode) :
    Option (List NodeId) × BuildCtx :=
  match scanSequence ctx sequence with
  | (none, ctx1) => (none, ctx1)
  | (some (topLevelIds, unprocessed), ctx1) =>
      match buildLoop view (wlMeasure unprocessed.reverse + 1) ctx1 unprocessed.reverse with
      | (none, ctx2) => (none, ctx2)
      | (some _, ctx2) => (some topLevelIds, ctx2)

/-- Source `Transaction.applyBuild`.  The `none` result models the
`assertNotUndefined` defect path, which is unreachable because a `none`
from the traversal always comes with a failure flag set. -/
def applyBuild (st : TxState) (change : BuildChange) : Option (EditResult × TxState) :=
  if st.detached.hasKey change.destination then some (.malformed, st)
  else
    match createSnapshotNodesForTree st.view ⟨st.detached, [], false, false, false⟩ change.source with
    | (newIds, ctx) =>
      if ctx.detachedSequenceNotFound || ctx.duplicateIdInBuild then
        some (.malformed, { view := st.view, detached := ctx.detached })
      else if ctx.idAlreadyPresent then
        some (.invalid, { view := st.view, detached := ctx.detached })
      else
        match newIds with
        | none => none
        | some ids =>
            some (.applied,
              { view := st.view.insertSnapshotNodes ctx.map,
                detached := ctx.detached.setKey change.destination ids })

/-- Source `Transaction.applyInsert`. -/
def applyInsert (st : TxState) (change : InsertChange) : EditResult × TxState :=
  match st.detached.get? change.source with
  | none => (.malformed, st)
  | some source =>
    let destinationChangeResult := validateStablePlace st.view change.destination
    if destinationChangeResult ≠ EditValidationResult.valid then
      (if destinationChangeResult = EditValidationResult.invalid then .invalid else .malformed, st)
    else
      (.applied,
        { view := insertIntoTrait st.view source change.destination,
          detached := st.detached.removeKey change.source })

/-- Source `Transaction.applyDetach`. -/
def applyDetach (st : TxState) (change : DetachChange) : EditResult × TxState :=
  let sourceChangeResult := validateStableRange st.view change.source
  if sourceChangeResult ≠ EditValidationResult.valid then
    (if sourceChangeResult = EditValidationResult.invalid then .invalid else .malformed, st)
  else
    let result := detachRange st.view change.source
    match change.destination with
    | some destination =>
        if st.detached.hasKey destination then (.malformed, st)
        else (.applied,
          { view := result.snapshot,
            detached := st.detached.setKey destination result.detached })
    | none =>
        (.applied, { view := result.snapshot.deleteNodes result.detached, detached := st.detached })

/-- Source `Transaction.applyConstraint`.  The two `assert`s on the unimplemented
hash fields are modelled as the `none` (defect) result. -/
def applyConstraint (st : TxState) (change : ConstraintChange) : Option (EditResult × TxState) :=
  if change.identityHash.isSome then none
  else if change.contentHash.isSome then none
  else
    let sourceChangeResult := validateStableRange st.view change.toConstrain
    let onViolation :=
      match change.effect with
      | .validRetry => EditResult.applied
      | .invalidRetry => EditResult.invalid
    if sourceChangeResult ≠ EditValidationResult.valid then
      some (if sourceChangeResult = EditValidationResult.invalid then onViolation else .malformed, st)
    else
      let r := rangeFromStableRange st.view change.toConstrain
      let startIndex := st.view.findIndexWithinTrait r.start
      let endIndex := st.view.findIndexWithinTrait r.endPlace
      if (match change.length with | some len => len != endIndex - startIndex | none => false) then
        some (onViolation, st)
      else if (match change.parentNode with
               | some pn => pn != r.endPlace.trait.parent | none => false) then
        some (onViolation, st)
      else if (match change.label with | some l => l != r.endPlace.trait.label | none => false) then
        some (onViolation, st)
      else
        some (.applied, st)

/-- Source `Transaction.applySetValue`.  The containment check and the record
lookup are fused into one association-list lookup (`hasNode` is exactly
`isSome` of that lookup). -/
def applySetValue (st : TxState) (change : SetValueChange) : EditResult × TxState :=
  match st.view.nodes.lookup change.nodeToModify with
  | none => (.invalid, st)
  | some node =>
    let newNode :=
      match change.payload with
      | none => { node with payload := none }
      | some p => { node with payload := some p }
    (.applied, { st with view := st.view.replaceNodeData change.nodeToModify newNode })

/-- Source `Transaction.dispatchChange`: exhaustive dispatch on the change tag. -/
def dispatchChange (st : TxState) (change : Change) : Option (EditResult × TxState) :=
  match change with
  | .build b => applyBuild st b
  | .insert i => some (applyInsert st i)
  | .detach d => some (applyDetach st d)
  | .constraint c => applyConstraint st c
  | .setValue s => some (applySetValue st s)

/-- Source `Transaction.validateOnClose`: "storing a detached sequence in an edit
but not using it is an error" — a non-empty registry makes the edit
Malformed at close. -/
def validateOnClose (st : TxState) : EditResult :=
  if st.detached.length ≠ 0 then .malformed else .applied

/-- Open/closed status of a transaction. -/
inductive TxStatus : Type where
  | opened
  | closed
deriving DecidableEq, Repr

/-- Modelled from the spec: the `GenericTransaction` driver's state —
the evolving core state plus `status: Open|Closed` and the frozen
`outcome`. -/
structure GenericTransaction where
  state : TxState
  status : TxStatus
  outcome : EditResult
deriving DecidableEq, Repr

/-- Modelled from the spec: construction sets `view := initial`,
`detached := empty`, `status := Open`, `outcome := Applied`. -/
def newTransaction (initial : Snapshot) : GenericTransaction :=
  { state := { view := initial, detached := [] }, status := .opened, outcome := .applied }

/-- Modelled from the spec: `apply(change)` dispatches when open (a failing
result closes the transaction and freezes the outcome), and is an inert
no-op returning the terminal outcome once closed.  `none` is the defect
(assertion) path of the dispatched handler. -/
def applyChange (t : GenericTransaction) (change : Change) :
    Option (EditResult × GenericTransaction) :=
  match t.status with
  | .closed => some (t.outcome, t)
  | .opened =>
    match dispatchChange t.state change with
    | none => none
    | some (r, st) =>
        if r = EditResult.applied then some (r, { t with state := st })
        else some (r, { state := st, status := .closed, outcome := r })

/-- Modelled from the spec: `close()` — when still open, run
`validateOnClose` and freeze its outcome; when already closed, return the
terminal outcome unchanged. -/
def closeTransaction (t : GenericTransaction) : EditResult × GenericTransaction :=
  match t.status with
  | .closed => (t.outcome, t)
  | .opened =>
    let r := validateOnClose t.state
    (r, { t with status := .closed, outcome := r })

mutual
/-- The identifiers of the inline nodes of one edit node, in traversal
order of the structure: the node itself, then its traits' children
(detached references contribute nothing — they expand to node ids already
created, not to inline nodes). -/
def inlineIdsNode : EditNode → List NodeId
  | .ref _ => []
  | .node i _ tr _ => i :: inlineIdsTraits tr

/-- The identifiers of all inline nodes inside a trait map. -/
def inlineIdsTraits : List (TraitLabel × List EditNode) → List NodeId
  | [] => []
  | (_, cs) :: rest => inlineIds cs ++ inlineIdsTraits rest

/-- The identifiers of all inline nodes in an edit-node sequence. -/
def inlineIds : List EditNode → List NodeId
  | [] => []
  | c :: rest => inlineIdsNode c ++ inlineIds rest
end

/-- The identifiers of all inline nodes in the trees of a worklist. -/
def wlInlineIds : List WorkNode → List NodeId
  | [] => []
  | (i, _, tr, _) :: rest => i :: (inlineIdsTraits tr ++ wlInlineIds rest)

/-- Written from the spec's words (§4.3 Insert): source not in the
registry is Malformed; the destination's validation maps directly to the
result; otherwise the source sequence leaves the registry, is spliced at
the destination, and the result is Applied. -/
def specInsert (st : TxState) (change : InsertChange) : EditResult × TxState :=
  match st.detached.get? change.source with
  | none => (.malformed, st)
  | some ids =>
    match validateStablePlace st.view change.destination with
    | .invalid => (.invalid, st)
    | .malformed => (.malformed, st)
    | .valid =>
        (.applied,
          { view := insertIntoTrait st.view ids change.destination,
            detached := st.detached.removeKey change.source })

/-- Written from the spec's words (§4.4 Detach): the source range's
validation maps directly on failure; otherwise the range is detached, and
the removed sequence is either stored under a fresh destination (an
occupied destination is Malformed), or permanently deleted from the
snapshot when no destination is given. -/
def specDetach (st : TxState) (change : DetachChange) : EditResult × TxState :=
  match validateStableRange st.view change.source with
  | .invalid => (.invalid, st)
  | .malformed => (.malformed, st)
  | .valid =>
    let r := detachRange st.view change.source
    match change.destination with
    | some destination =>
        if st.detached.hasKey destination then (.malformed, st)
        else (.applied,
          { view := r.snapshot, detached := st.detached.setKey destination r.detached })
    | none =>
        (.applied, { view := r.snapshot.deleteNodes r.detached, detached := st.detached })

/-- Written from the spec's words (§4.5 Constraint): Malformed range is
Malformed; an Invalid range or the first failing check among length,
parentNode, label is a violation, returning Applied under ValidRetry and
Invalid under InvalidRetry; otherwise Applied. -/
def specConstraintResult (view : Snapshot) (change : ConstraintChange) : EditResult :=
  let onViolation :=
    match change.effect with
    | .validRetry => EditResult.applied
    | .invalidRetry => EditResult.invalid
  match validateStableRange view change.toConstrain with
  | .malformed => .malformed
  | .invalid => onViolation
  | .valid =>
    let r := rangeFromStableRange view change.toConstrain
    let startIndex := view.findIndexWithinTrait r.start
    let endIndex := view.findIndexWithinTrait r.endPlace
    if (match change.length with | some len => len != endIndex - startIndex | none => false) then
      onViolation
    else if (match change.parentNode with
             | some pn => pn != r.endPlace.trait.parent | none => false) then
      onViolation
    else if (match change.label with | some l => l != r.endPlace.trait.label | none => false) then
      onViolation
    else .applied

/-- Written from the spec's words (§4.6 SetValue): an absent node is
Invalid; otherwise the cloned record has its payload removed (explicit
null) or set, and replaces the node's record. -/
def specSetValue (st : TxState) (change : SetValueChange) : EditResult × TxState :=
  if st.view.hasNode change.nodeToModify = false then (.invalid, st)
  else
    match st.view.getSnapshotNode? change.nodeToModify with
    | none => (.invalid, st)
    | some node =>
      let newNode :=
        match change.payload with
        | none => { node with payload := none }
        | some p => { node with payload := some p }
      (.applied, { st with view := st.view.replaceNodeData change.nodeToModify newNode })

theorem lookup_append_left {α β : Type} [BEq α] [LawfulBEq α] {l1 l2 : List (α × β)} {k : α}
    {v : β} (h : l1.lookup k = some v) : (l1 ++ l2).lookup k = some v := by
  rw [List.lookup_append, h]; rfl

theorem lookup_append_of_none {α β : Type} [BEq α] [LawfulBEq α] {l1 : List (α × β)}
    (l2 : List (α × β)) {k : α} (h : l1.lookup k = none) :
    (l1 ++ l2).lookup k = l2.lookup k := by
  rw [List.lookup_append, h]; rfl

theorem lookup_append_none_left {α β : Type} [BEq α] [LawfulBEq α] {l1 l2 : List (α × β)} {k : α}
    (h : (l1 ++ l2).lookup k = none) : l1.lookup k = none := by
  rw [List.lookup_append] at h
  cases hl : l1.lookup k with
  | none => rfl
  | some v => rw [hl] at h; simp [Option.or] at h

/-- Looking a key up after filtering on a key predicate: found exactly when
the key passes the predicate. -/
theorem lookup_filter_key {α β : Type} [BEq α] [LawfulBEq α] (l : List (α × β)) (q : α → Bool)
    (k : α) :
    (l.filter (fun p => q p.1)).lookup k = if q k = true then l.lookup k else none := by
  induction l with
  | nil => simp
  | cons a rest ih =>
      cases a with
      | mk ka vb =>
        by_cases hka : k = ka
        · subst hka
          by_cases hq : q k = true
          · rw [List.filter_cons_of_pos (by simpa using hq)]
            simp [List.lookup_cons, hq]
          · rw [List.filter_cons_of_neg (by simpa using hq)]
            simp only [ih]
            simp [hq]
        · have hb : (k == ka) = false := by simpa using hka
          by_cases hq : q ka = true
          · rw [List.filter_cons_of_pos (by simpa using hq)]
            simp only [List.lookup_cons, hb]
            exact ih
          · rw [List.filter_cons_of_neg (by simpa using hq)]
            rw [ih]
            by_cases hqk : q k = true <;> simp [hqk, List.lookup_cons, hb]

/-- Looking a key up after a value update at key `k`: the stored value is
mapped at `k` and untouched elsewhere. -/
theorem lookup_map_update {α β : Type} [BEq α] [LawfulBEq α] (l : List (α × β)) (f : β → β)
    (k x : α) :
    (l.map (fun p => if p.1 == k then (p.1, f p.2) else p)).lookup x =
      if x == k then (l.lookup x).map f else l.lookup x := by
  induction l with
  | nil => cases hx : x == k <;> simp [hx]
  | cons a rest ih =>
      cases a with
      | mk ka vb =>
        simp only [List.map_cons]
        cases hh : (ka == k) with
        | false =>
            simp only [hh, Bool.false_eq_true, if_false]
            cases hx : (x == ka) with
            | true =>
                have hxka : x = ka := eq_of_beq hx
                subst hxka
                simp only [List.lookup_cons, hx, hh]
                simp [hh]
            | false =>
                simp only [List.lookup_cons, hx]
                exact ih
        | true =>
            have hkka : ka = k := eq_of_beq hh
            subst hkka
            rw [if_pos rfl]
            cases hx : (x == ka) with
            | true =>
                have hxka : x = ka := eq_of_beq hx
                subst hxka
                simp [List.lookup_cons, hx]
            | false =>
                simp only [List.lookup_cons, hx]
                rw [ih]
                simp [hx]

theorem removeKey_lookup_self (r : Registry) (k : DetachedSequenceId) :
    (r.removeKey k).lookup k = none := by
  have h := lookup_filter_key r (fun a => !(a == k)) k
  simpa [Registry.removeKey] using h

theorem removeKey_lookup_ne (r : Registry) {k x : DetachedSequenceId} (h : x ≠ k) :
    (r.removeKey k).lookup x = r.lookup x := by
  have hf := lookup_filter_key r (fun a => !(a == k)) x
  have hx : (x == k) = false := by simpa using h
  simpa [Registry.removeKey, hx] using hf

theorem setKey_lookup_self (r : Registry) (k : DetachedSequenceId) (v : List NodeId) :
    (r.setKey k v).lookup k = some v := by
  unfold Registry.setKey
  by_cases hk : r.hasKey k = true
  · rw [if_pos hk]
    have hu := lookup_map_update r (fun _ => v) k k
    rw [hu, if_pos (by simp)]
    unfold Registry.hasKey at hk
    cases hl : r.lookup k with
    | none => rw [hl] at hk; simp at hk
    | some w => simp
  · rw [if_neg hk]
    unfold Registry.hasKey at hk
    have hn : r.lookup k = none := by
      cases hl : r.lookup k with
      | none => rfl
      | some w => rw [hl] at hk; simp at hk
    rw [lookup_append_of_none _ hn]
    simp [List.lookup_cons]

theorem setKey_lookup_ne (r : Registry) {k x : DetachedSequenceId} (v : List NodeId)
    (h : x ≠ k) : (r.setKey k v).lookup x = r.lookup x := by
  unfold Registry.setKey
  have hx : (x == k) = false := by simpa using h
  by_cases hk : r.hasKey k = true
  · rw [if_pos hk]
    have hu := lookup_map_update r (fun _ => v) k x
    rw [hu]
    simp [hx]
  · rw [if_neg hk]
    rw [List.lookup_append]
    simp [List.lookup_cons, hx, Option.or]
    cases r.lookup x <;> simp

/-- One registry refines another: every association of the first is an
association of the second (the first is the second minus some entries). -/
def regSub (r1 r2 : Registry) : Prop :=
  ∀ k v, r1.lookup k = some v → r2.lookup k = some v

theorem regSub_refl (r : Registry) : regSub r r := fun _ _ h => h

theorem regSub_trans {r1 r2 r3 : Registry} (h12 : regSub r1 r2) (h23 : regSub r2 r3) :
    regSub r1 r3 := fun k v h => h23 k v (h12 k v h)

theorem regSub_removeKey (r : Registry) (k : DetachedSequenceId) : regSub (r.removeKey k) r := by
  intro x v h
  by_cases hx : x = k
  · subst hx; rw [removeKey_lookup_self] at h; exact (Option.some_ne_none v h.symm).elim
  · rw [removeKey_lookup_ne r hx] at h; exact h

theorem deleteNodes_hasNode (s : Snapshot) (ids : List NodeId) (x : NodeId) :
    (s.deleteNodes ids).hasNode x = (s.hasNode x && !(ids.contains x)) := by
  unfold Snapshot.deleteNodes Snapshot.hasNode
  have hf := lookup_filter_key s.nodes (fun a => !(ids.contains a)) x
  rw [hf]
  by_cases hm : x ∈ ids
  · have hc : ids.contains x = true := by simpa using hm
    rw [hc]
    simp [hc]
  · have hc : ids.contains x = false := by simpa using hm
    rw [hc]
    simp [hc]

theorem setTrait_hasNode (s : Snapshot) (parent : NodeId) (label : TraitLabel)
    (cs : List NodeId) (x : NodeId) : (s.setTrait parent label cs).hasNode x = s.hasNode x := by
  unfold Snapshot.setTrait Snapshot.hasNode
  have hu := lookup_map_update s.nodes
    (fun n => { n with traits := setTraitList n.traits label cs }) parent x
  simp only [hu]
  by_cases hx : x = parent
  · subst hx
    rw [if_pos (by simp)]
    cases s.nodes.lookup x <;> simp
  · rw [if_neg (by simpa using hx)]

theorem detachRange_hasNode (s : Snapshot) (r : StableRange) (x : NodeId) :
    (detachRange s r).snapshot.hasNode x = s.hasNode x := by
  unfold detachRange
  exact setTrait_hasNode s _ _ _ x

theorem replaceNodeData_lookup_self (s : Snapshot) (id : NodeId) (n : SnapshotNode) :
    (s.replaceNodeData id n).nodes.lookup id = (s.nodes.lookup id).map (fun _ => n) := by
  unfold Snapshot.replaceNodeData
  have hu := lookup_map_update s.nodes (fun _ => n) id id
  rw [hu, if_pos (by simp)]

theorem replaceNodeData_lookup_ne (s : Snapshot) {id x : NodeId} (n : SnapshotNode)
    (h : x ≠ id) : (s.replaceNodeData id n).nodes.lookup x = s.nodes.lookup x := by
  unfold Snapshot.replaceNodeData
  have hu := lookup_map_update s.nodes (fun _ => n) id x
  rw [hu, if_neg (by simpa using h)]

/-- What one registry-consuming step of the traversal can do to the build
context: only remove registry entries, and only raise the not-found flag
(the local map and the other two flags are untouched by the scanning
phases; `onCreateNode` is the only writer of those). -/
def ctxScanEvolves (c c' : BuildCtx) : Prop :=
  regSub c'.detached c.detached ∧ c'.map = c.map ∧
    c'.duplicateIdInBuild = c.duplicateIdInBuild ∧ c'.idAlreadyPresent = c.idAlreadyPresent

theorem ctxScanEvolves_refl (c : BuildCtx) : ctxScanEvolves c c :=
  ⟨regSub_refl _, rfl, rfl, rfl⟩

theorem ctxScanEvolves_trans {c1 c2 c3 : BuildCtx} (h12 : ctxScanEvolves c1 c2)
    (h23 : ctxScanEvolves c2 c3) : ctxScanEvolves c1 c3 :=
  ⟨regSub_trans h23.1 h12.1, h23.2.1.trans h12.2.1,
    h23.2.2.1.trans h12.2.2.1, h23.2.2.2.trans h12.2.2.2⟩

theorem getDetachedNodeIds_evolves {ctx : BuildCtx} {d : DetachedSequenceId}
    {o : Option (List NodeId)} {ctx' : BuildCtx} (h : getDetachedNodeIds ctx d = (o, ctx')) :
    ctxScanEvolves ctx ctx' := by
  unfold getDetachedNodeIds at h
  cases hl : ctx.detached.get? d with
  | none =>
      rw [hl] at h
      cases h
      exact ⟨regSub_refl _, rfl, rfl, rfl⟩
  | some ids =>
      rw [hl] at h
      cases h
      exact ⟨regSub_removeKey _ _, rfl, rfl, rfl⟩

theorem scanSequence_evolves {s : List EditNode} :
    ∀ {ctx : BuildCtx} {o : Option (List NodeId × List WorkNode)} {ctx' : BuildCtx},
      scanSequence ctx s = (o, ctx') → ctxScanEvolves ctx ctx' := by
  induction s with
  | nil =>
      intro ctx o ctx' h
      cases h
      exact ctxScanEvolves_refl _
  | cons c rest ih =>
      intro ctx o ctx' h
      cases c with
      | ref d =>
          rw [scanSequence] at h
          split at h
          · next ctx1 heq =>
              cases h
              exact getDetachedNodeIds_evolves heq
          · next ids ctx1 heq =>
              split at h
              · next ctx2 heq2 =>
                  cases h
                  exact ctxScanEvolves_trans (getDetachedNodeIds_evolves heq) (ih heq2)
              · next tl un ctx2 heq2 =>
                  cases h
                  exact ctxScanEvolves_trans (getDetachedNodeIds_evolves heq) (ih heq2)
      | node i df tr p =>
          rw [scanSequence] at h
          split at h
          · next ctx1 heq =>
              cases h
              exact ih heq
          · next tl un ctx1 heq =>
              cases h
              exact ih heq

theorem processChildren_evolves {cs : List EditNode} :
    ∀ {ctx : BuildCtx} {o : Option (List NodeId × List WorkNode)} {ctx' : BuildCtx},
      processChildren ctx cs = (o, ctx') → ctxScanEvolves ctx ctx' := by
  induction cs with
  | nil =>
      intro ctx o ctx' h
      cases h
      exact ctxScanEvolves_refl _
  | cons c rest ih =>
      intro ctx o ctx' h
      cases c with
      | ref d =>
          rw [processChildren] at h
          split at h
          · next ctx1 heq =>
              cases h
              exact getDetachedNodeIds_evolves heq
          · next ids ctx1 heq =>
              split at h
              · next ctx2 heq2 =>
                  cases h
                  exact ctxScanEvolves_trans (getDetachedNodeIds_evolves heq) (ih heq2)
              · next cids pushed ctx2 heq2 =>
                  cases h
                  exact ctxScanEvolves_trans (getDetachedNodeIds_evolves heq) (ih heq2)
      | node i df tr p =>
          rw [processChildren] at h
          split at h
          · next ctx1 heq =>
              cases h
              exact ih heq
          · next cids pushed ctx1 heq =>
              cases h
              exact ih heq

theorem processTraits_evolves {tr : List (TraitLabel × List EditNode)} :
    ∀ {ctx : BuildCtx} {o : Option (List (TraitLabel × List NodeId) × List WorkNode)}
      {ctx' : BuildCtx}, processTraits ctx tr = (o, ctx') → ctxScanEvolves ctx ctx' := by
  induction tr with
  | nil =>
      intro ctx o ctx' h
      cases h
      exact ctxScanEvolves_refl _
  | cons lc rest ih =>
      intro ctx o ctx' h
      cases lc with
      | mk l cs =>
        rw [processTraits] at h
        split at h
        · next ctx1 heq =>
            cases h
            exact processChildren_evolves heq
        · next cids pushed ctx1 heq =>
            split at h
            · next ctx2 heq2 =>
                cases h
                exact ctxScanEvolves_trans (processChildren_evolves heq) (ih heq2)
            · next traits pushed2 ctx2 heq2 =>
                cases h
                exact ctxScanEvolves_trans (processChildren_evolves heq) (ih heq2)

theorem onCreateNode_detached (view : Snapshot) (ctx : BuildCtx) (id : NodeId)
    (n : SnapshotNode) : (onCreateNode view ctx id n).2.detached = ctx.detached := by
  unfold onCreateNode
  by_cases h1 : (ctx.map.lookup id).isSome = true
  · rw [if_pos h1]
  · rw [if_neg h1]
    by_cases h2 : view.hasNode id = true
    · rw [if_pos h2]
    · rw [if_neg h2]

theorem buildLoop_detachedSub (view : Snapshot) :
    ∀ (fuel : Nat) {ctx : BuildCtx} {wl : List WorkNode} {o : Option Unit} {ctx' : BuildCtx},
      buildLoop view fuel ctx wl = (o, ctx') → regSub ctx'.detached ctx.detached := by
  intro fuel
  induction fuel with
  | zero =>
      intro ctx wl o ctx' h
      cases h
      exact regSub_refl _
  | succ fuel ih =>
      intro ctx wl o ctx' h
      cases wl with
      | nil =>
          cases h
          exact regSub_refl _
      | cons w rest =>
          cases w with
          | mk i rest2 =>
            cases rest2 with
            | mk df rest3 =>
              cases rest3 with
              | mk tr p =>
                rw [buildLoop] at h
                split at h
                · next ctx1 heq =>
                    cases h
                    exact (processTraits_evolves heq).1
                · next traits pushed ctx1 heq =>
                    split at h
                    · next ctx2 heq2 =>
                        cases h
                        have hd : ctx'.detached = ctx1.detached := by
                          have := onCreateNode_detached view ctx1 i ⟨i, df, traits, p⟩
                          rw [heq2] at this
                          exact this
                        rw [hd]
                        exact (processTraits_evolves heq).1
                    · next ctx2 heq2 =>
                        have hd : ctx2.detached = ctx1.detached := by
                          have := onCreateNode_detached view ctx1 i ⟨i, df, traits, p⟩
                          rw [heq2] at this
                          exact this
                        have hsub := ih h
                        rw [hd] at hsub
                        exact regSub_trans hsub (processTraits_evolves heq).1

theorem createSnapshotNodesForTree_detachedSub {view : Snapshot} {ctx : BuildCtx}
    {s : List EditNode} {o : Option (List NodeId)} {ctx' : BuildCtx}
    (h : createSnapshotNodesForTree view ctx s = (o, ctx')) :
    regSub ctx'.detached ctx.detached := by
  unfold createSnapshotNodesForTree at h
  split at h
  · next ctx1 heq =>
      cases h
      exact (scanSequence_evolves heq).1
  · next tl un ctx1 heq =>
      split at h
      · next ctx2 heq2 =>
          cases h
          exact regSub_trans (buildLoop_detachedSub view _ heq2) (scanSequence_evolves heq).1
      · next u ctx2 heq2 =>
          cases h
          exact regSub_trans (buildLoop_detachedSub view _ heq2) (scanSequence_evolves heq).1

theorem wlInlineIds_append (a b : List WorkNode) :
    wlInlineIds (a ++ b) = wlInlineIds a ++ wlInlineIds b := by
  induction a with
  | nil => simp [wlInlineIds]
  | cons w rest ih =>
      cases w with
      | mk i rest2 =>
        cases rest2 with
        | mk df rest3 =>
          cases rest3 with
          | mk tr p =>
            show i :: (inlineIdsTraits tr ++ wlInlineIds (rest ++ b)) = _
            rw [ih]
            simp [wlInlineIds]

theorem wlInlineIds_reverse_perm (l : List WorkNode) :
    (wlInlineIds l.reverse).Perm (wlInlineIds l) := by
  induction l with
  | nil => simp [wlInlineIds]
  | cons w rest ih =>
      cases w with
      | mk i rest2 =>
        cases rest2 with
        | mk df rest3 =>
          cases rest3 with
          | mk tr p =>
            rw [List.reverse_cons, wlInlineIds_append]
            exact ((ih.append_right _).trans List.perm_append_comm).trans
              (by simp [wlInlineIds])

theorem processChildren_ids {cs : List EditNode} :
    ∀ {ctx : BuildCtx} {cids : List NodeId} {pushed : List WorkNode} {ctx' : BuildCtx},
      processChildren ctx cs = (some (cids, pushed), ctx') →
      wlInlineIds pushed = inlineIds cs := by
  induction cs with
  | nil =>
      intro ctx cids pushed ctx' h
      cases h
      simp [wlInlineIds, inlineIds]
  | cons c rest ih =>
      intro ctx cids pushed ctx' h
      cases c with
      | ref d =>
          rw [processChildren] at h
          split at h
          · next ctx1 heq => cases h
          · next ids ctx1 heq =>
              split at h
              · next ctx2 heq2 => cases h
              · next cids2 pushed2 ctx2 heq2 =>
                  cases h
                  rw [ih heq2]
                  simp [inlineIds, inlineIdsNode]
      | node i df tr p =>
          rw [processChildren] at h
          split at h
          · next ctx1 heq => cases h
          · next cids2 pushed2 ctx1 heq =>
              cases h
              show i :: (inlineIdsTraits tr ++ wlInlineIds pushed2) = _
              rw [ih heq]
              simp [inlineIds, inlineIdsNode]

theorem processTraits_ids {tr : List (TraitLabel × List EditNode)} :
    ∀ {ctx : BuildCtx} {traits : List (TraitLabel × List NodeId)} {pushed : List WorkNode}
      {ctx' : BuildCtx},
      processTraits ctx tr = (some (traits, pushed), ctx') →
      wlInlineIds pushed = inlineIdsTraits tr := by
  induction tr with
  | nil =>
      intro ctx traits pushed ctx' h
      cases h
      simp [wlInlineIds, inlineIdsTraits]
  | cons lc rest ih =>
      intro ctx traits pushed ctx' h
      cases lc with
      | mk l cs =>
        rw [processTraits] at h
        split at h
        · next ctx1 heq => cases h
        · next cids pushed1 ctx1 heq =>
            split at h
            · next ctx2 heq2 => cases h
            · next traits2 pushed2 ctx2 heq2 =>
                cases h
                rw [wlInlineIds_append, processChildren_ids heq, ih heq2]
                simp [inlineIdsTraits]

theorem scanSequence_ids {s : List EditNode} :
    ∀ {ctx : BuildCtx} {tl : List NodeId} {un : List WorkNode} {ctx' : BuildCtx},
      scanSequence ctx s = (some (tl, un), ctx') → wlInlineIds un = inlineIds s := by
  induction s with
  | nil =>
      intro ctx tl un ctx' h
      cases h
      simp [wlInlineIds, inlineIds]
  | cons c rest ih =>
      intro ctx tl un ctx' h
      cases c with
      | ref d =>
          rw [scanSequence] at h
          split at h
          · next ctx1 heq => cases h
          · next ids ctx1 heq =>
              split at h
              · next ctx2 heq2 => cases h
              · next tl2 un2 ctx2 heq2 =>
                  cases h
                  rw [ih heq2]
                  simp [inlineIds, inlineIdsNode]
      | node i df tr p =>
          rw [scanSequence] at h
          split at h
          · next ctx1 heq => cases h
          · next tl2 un2 ctx1 heq =>
              cases h
              show i :: (inlineIdsTraits tr ++ wlInlineIds un2) = _
              rw [ih heq]
              simp [inlineIds, inlineIdsNode]

/-- A successful (non-halted) worklist run certifies its input: the local
map only grows, the inline identifiers in the worklist's trees are pairwise
distinct, and each of them was absent from the incoming map and from the
view and is present in the final map.  (Had any of this failed, the halting
`onCreateNode` callback would have flagged it and the run would not have
produced `some`.) -/
theorem buildLoop_applied (view : Snapshot) :
    ∀ (fuel : Nat) {ctx : BuildCtx} {wl : List WorkNode} {ctx' : BuildCtx},
      buildLoop view fuel ctx wl = (some (), ctx') →
      (∀ k, (ctx.map.lookup k).isSome = true → (ctx'.map.lookup k).isSome = true) ∧
      (wlInlineIds wl).Nodup ∧
      (∀ i ∈ wlInlineIds wl,
        ctx.map.lookup i = none ∧ view.hasNode i = false ∧
          (ctx'.map.lookup i).isSome = true) := by
  intro fuel
  induction fuel with
  | zero =>
      intro ctx wl ctx' h
      simp [buildLoop] at h
  | succ fuel ih =>
      intro ctx wl ctx' h
      cases wl with
      | nil =>
          cases h
          refine ⟨fun k hk => hk, by simp [wlInlineIds], by simp [wlInlineIds]⟩
      | cons w rest =>
          cases w with
          | mk i rest2 =>
            cases rest2 with
            | mk df rest3 =>
              cases rest3 with
              | mk tr p =>
                rw [buildLoop] at h
                split at h
                · next ctx1 heq => simp at h
                · next traits pushed ctx1 heq =>
                    split at h
                    · next ctx2 heq2 => simp at h
                    · next ctx2 heq2 =>
                        have hmapeq : ctx1.map = ctx.map := (processTraits_evolves heq).2.1
                        unfold onCreateNode at heq2
                        split at heq2
                        · next hc1 => simp at heq2
                        · split at heq2
                          · next hc2 => simp at heq2
                          · next hc1 hc2 =>
                              cases heq2
                              have hmapi : ctx1.map.lookup i = none := by
                                cases hm : ctx1.map.lookup i with
                                | none => rfl
                                | some w =>
                                    exfalso
                                    exact hc1 (by simp [hm])
                              have hview : view.hasNode i = false := by
                                cases hv : view.hasNode i with
                                | false => rfl
                                | true => exact (hc2 hv).elim
                              obtain ⟨iha, ihb, ihc⟩ := ih h
                              have hids : wlInlineIds pushed = inlineIdsTraits tr :=
                                processTraits_ids heq
                              have hperm : (wlInlineIds (pushed.reverse ++ rest)).Perm
                                  (inlineIdsTraits tr ++ wlInlineIds rest) := by
                                rw [wlInlineIds_append, ← hids]
                                exact (wlInlineIds_reverse_perm pushed).append_right _
                              have hlooki :
                                  (ctx1.map ++ [(i, (⟨i, df, traits, p⟩ : SnapshotNode))]).lookup i
                                    = some ⟨i, df, traits, p⟩ := by
                                rw [lookup_append_of_none _ hmapi]
                                simp [List.lookup_cons]
                              refine ⟨?_, ?_, ?_⟩
                              · intro k hk
                                apply iha
                                show ((ctx1.map ++ [(i, (⟨i, df, traits, p⟩ : SnapshotNode))]).lookup
                                  k).isSome = true
                                rw [← hmapeq] at hk
                                cases hl : ctx1.map.lookup k with
                                | none => rw [hl] at hk; simp at hk
                                | some v =>
                                    rw [lookup_append_left hl]
                                    rfl
                              · show (i :: (inlineIdsTraits tr ++ wlInlineIds rest)).Nodup
                                rw [List.nodup_cons]
                                constructor
                                · intro hmem
                                  have hmem2 : i ∈ wlInlineIds (pushed.reverse ++ rest) :=
                                    hperm.mem_iff.mpr hmem
                                  have := (ihc i hmem2).1
                                  show False
                                  rw [show (({ctx1 with
                                    map := ctx1.map ++ [(i, (⟨i, df, traits, p⟩ : SnapshotNode))]
                                    } : BuildCtx).map) = ctx1.map ++
                                      [(i, (⟨i, df, traits, p⟩ : SnapshotNode))] from rfl] at this
                                  rw [hlooki] at this
                                  exact Option.some_ne_none _ this
                                · exact hperm.nodup_iff.mp ihb
                              · intro x hx
                                show ctx.map.lookup x = none ∧ view.hasNode x = false ∧
                                  (ctx'.map.lookup x).isSome = true
                                have hx2 : x = i ∨ x ∈ inlineIdsTraits tr ++ wlInlineIds rest := by
                                  simpa [wlInlineIds] using hx
                                cases hx2 with
                                | inl hxi =>
                                    subst hxi
                                    refine ⟨by rw [← hmapeq]; exact hmapi, hview, ?_⟩
                                    apply iha
                                    show ((ctx1.map ++
                                      [(x, (⟨x, df, traits, p⟩ : SnapshotNode))]).lookup
                                        x).isSome = true
                                    rw [hlooki]
                                    rfl
                                | inr hxT =>
                                    have hmem2 : x ∈ wlInlineIds (pushed.reverse ++ rest) :=
                                      hperm.mem_iff.mpr hxT
                                    obtain ⟨h1, h2, h3⟩ := ihc x hmem2
                                    have h1b : (ctx1.map ++
                                        [(i, (⟨i, df, traits, p⟩ : SnapshotNode))]).lookup x
                                          = none := h1
                                    refine ⟨?_, h2, h3⟩
                                    rw [← hmapeq]
                                    exact lookup_append_none_left h1b

/-- C1: if `close` runs while the detached registry is non-empty, the
transaction's outcome is Malformed; if the registry is empty and no change
failed (the transaction is still open), the outcome stays Applied. -/
theorem close_registry_policy (t : GenericTransaction) (h : t.status = TxStatus.opened) :
    (t.state.detached ≠ [] → (closeTransaction t).1 = EditResult.malformed ∧
      (closeTransaction t).2.outcome = EditResult.malformed) ∧
    (t.state.detached = [] → (closeTransaction t).1 = EditResult.applied ∧
      (closeTransaction t).2.outcome = EditResult.applied) := by
  unfold closeTransaction
  rw [h]
  constructor
  · intro hne
    have hl : t.state.detached.length ≠ 0 := by
      cases hd : t.state.detached with
      | nil => exact (hne hd).elim
      | cons a rest => simp
    simp [validateOnClose, hl]
  · intro he
    have hl : t.state.detached.length = 0 := by rw [he]; rfl
    simp [validateOnClose, hl]

/-- A one-node snapshot used as a concrete fixture. -/
def sampleView : Snapshot := { root := 0, nodes := [(0, ⟨0, 0, [], none⟩)] }

/-- An open transaction over `sampleView` holding one detached sequence. -/
def sampleOpenTxHeld : GenericTransaction :=
  { state := { view := sampleView, detached := [(3, [7])] }, status := .opened,
    outcome := .applied }

/-- An open transaction over `sampleView` with an empty registry. -/
def sampleOpenTxEmpty : GenericTransaction :=
  { state := { view := sampleView, detached := [] }, status := .opened, outcome := .applied }

/-- C1 witness: a concrete open transaction with a non-empty registry
closes Malformed, and one with an empty registry closes Applied. -/
theorem close_registry_policy_witness :
    (closeTransaction sampleOpenTxHeld).1 = EditResult.malformed ∧
    (closeTransaction sampleOpenTxEmpty).1 = EditResult.applied :=
  ⟨((close_registry_policy sampleOpenTxHeld rfl).1 (by decide)).1,
   ((close_registry_policy sampleOpenTxEmpty rfl).2 rfl).1⟩

/-- C6: applying a Constraint change never mutates the view — whenever
`applyConstraint` returns a result at all, the state it returns carries
exactly the prior view. -/
theorem applyConstraint_view_unchanged (st : TxState) (c : ConstraintChange) (r : EditResult)
    (st' : TxState) (h : applyConstraint st c = some (r, st')) : st'.view = st.view := by
  simp only [applyConstraint] at h
  split at h
  · exact Option.noConfusion h
  · split at h
    · exact Option.noConfusion h
    · split at h
      · cases h; rfl
      · split at h
        · cases h; rfl
        · split at h
          · cases h; rfl
          · split at h
            · cases h; rfl
            · cases h; rfl

/-- The transaction state over `sampleView` with an empty registry. -/
def sampleState : TxState := { view := sampleView, detached := [] }

/-- A malformed stable range fixture (no reference fields at all). -/
def sampleBadRange : StableRange :=
  { start := ⟨.before, none, none⟩, endPlace := ⟨.before, none, none⟩ }

/-- A hash-free Constraint fixture over the malformed range. -/
def sampleConstraint : ConstraintChange :=
  { toConstrain := sampleBadRange, effect := .invalidRetry, length := none,
    parentNode := none, label := none, identityHash := none, contentHash := none }

/-- C6 witness: on a concrete state and Constraint change, the result state
of `applyConstraint` keeps the prior view. -/
theorem applyConstraint_view_unchanged_witness : sampleState.view = sampleState.view :=
  applyConstraint_view_unchanged sampleState sampleConstraint .malformed sampleState (by decide)

/-- C9: a Constraint carrying either unimplemented hash field makes the
interpreter fail fast (the assertion/defect result, `none`, rather than any
`EditResult`); with both fields absent the assertions cannot fire and
`applyConstraint` returns a data-level result. -/
theorem applyConstraint_hash_defect (st : TxState) (c : ConstraintChange) :
    ((c.identityHash = none ∧ c.contentHash = none) →
      ∃ r st', applyConstraint st c = some (r, st')) ∧
    ((c.identityHash ≠ none ∨ c.contentHash ≠ none) → applyConstraint st c = none) := by
  constructor
  · rintro ⟨h1, h2⟩
    simp only [applyConstraint, h1, h2, Option.isSome_none, Bool.false_eq_true, if_false]
    split
    · exact ⟨_, _, rfl⟩
    · split
      · exact ⟨_, _, rfl⟩
      · split
        · exact ⟨_, _, rfl⟩
        · split
          · exact ⟨_, _, rfl⟩
          · exact ⟨_, _, rfl⟩
  · intro hor
    cases hor with
    | inl h1 =>
        have hs : c.identityHash.isSome = true := Option.ne_none_iff_isSome.mp h1
        simp [applyConstraint, hs]
    | inr h2 =>
        have hs : c.contentHash.isSome = true := Option.ne_none_iff_isSome.mp h2
        by_cases h1 : c.identityHash.isSome = true
        · simp [applyConstraint, h1]
        · simp [applyConstraint, h1, hs]

/-- A Constraint fixture carrying an identity hash. -/
def sampleHashConstraint : ConstraintChange :=
  { toConstrain := sampleBadRange, effect := .invalidRetry, length := none,
    parentNode := none, label := none, identityHash := some 5, contentHash := none }

/-- C9 witness: at concrete inputs, the hash-free Constraint gets a
data-level result and the hash-carrying one gets the defect result. -/
theorem applyConstraint_hash_defect_witness :
    (∃ r st', applyConstraint sampleState sampleConstraint = some (r, st')) ∧
    applyConstraint sampleState sampleHashConstraint = none :=
  ⟨(applyConstraint_hash_defect sampleState sampleConstraint).1 ⟨rfl, rfl⟩,
   (applyConstraint_hash_defect sampleState sampleHashConstraint).2 (Or.inl (by decide))⟩

/-- C7: with both hash fields absent, `applyConstraint` returns, at the
unchanged state, exactly the classification the specification prescribes:
Malformed range is Malformed; an Invalid range or the first failing check
among length, parentNode, label returns Applied under ValidRetry and
Invalid under InvalidRetry; otherwise Applied. -/
theorem applyConstraint_classification (st : TxState) (c : ConstraintChange)
    (h1 : c.identityHash = none) (h2 : c.contentHash = none) :
    applyConstraint st c = some (specConstraintResult st.view c, st) := by
  simp only [applyConstraint, specConstraintResult, h1, h2, Option.isSome_none,
    Bool.false_eq_true, if_false]
  cases hv : validateStableRange st.view c.toConstrain with
  | malformed => simp [hv]
  | invalid => simp [hv]
  | valid =>
      simp only [hv]
      rw [if_neg (fun hh => hh rfl)]
      split
      · next hc => simp [hc]
      · next hc =>
          split
          · next hc2 => simp [hc, hc2]
          · next hc2 =>
              split
              · next hc3 => simp [hc, hc2, hc3]
              · next hc3 => simp [hc, hc2, hc3]

/-- C7 witness: the classification equation at a concrete state and a
concrete hash-free Constraint. -/
theorem applyConstraint_classification_witness :
    applyConstraint sampleState sampleConstraint =
      some (specConstraintResult sampleState.view sampleConstraint, sampleState) :=
  applyConstraint_classification sampleState sampleConstraint rfl rfl

/-- C4: `applyInsert` implements the specification's Insert semantics
exactly: an unknown source is Malformed; the destination's validation
classifies the failure; otherwise the source leaves the registry, the
stored sequence is spliced at the destination, and the result is
Applied. -/
theorem applyInsert_matches_spec (st : TxState) (c : InsertChange) :
    applyInsert st c = specInsert st c := by
  cases hl : st.detached.get? c.source with
  | none => simp [applyInsert, specInsert, hl]
  | some ids =>
      cases hv : validateStablePlace st.view c.destination with
      | valid => simp [applyInsert, specInsert, hl, hv]
      | invalid => simp [applyInsert, specInsert, hl, hv]
      | malformed => simp [applyInsert, specInsert, hl, hv]

/-- C5: `applyDetach` implements the specification's Detach semantics
exactly; a detached range keeps every node record in the snapshot (the
registry-stored case), and `deleteNodes` (the destination-free case)
makes `hasNode` false for every removed id. -/
theorem applyDetach_matches_spec :
    (∀ (st : TxState) (c : DetachChange), applyDetach st c = specDetach st c) ∧
    (∀ (s : Snapshot) (r : StableRange) (x : NodeId),
      (detachRange s r).snapshot.hasNode x = s.hasNode x) ∧
    (∀ (s : Snapshot) (ids : List NodeId) (x : NodeId), x ∈ ids →
      (s.deleteNodes ids).hasNode x = false) := by
  refine ⟨?_, detachRange_hasNode, ?_⟩
  · intro st c
    cases hv : validateStableRange st.view c.source with
    | invalid => simp [applyDetach, specDetach, hv]
    | malformed => simp [applyDetach, specDetach, hv]
    | valid =>
        cases hd : c.destination with
        | none => simp [applyDetach, specDetach, hv, hd]
        | some destination =>
            by_cases hk : st.detached.hasKey destination = true
            · simp [applyDetach, specDetach, hv, hd, hk]
            · simp [applyDetach, specDetach, hv, hd, hk]
  · intro s ids x hx
    have hc : ids.contains x = true := by simpa using hx
    rw [deleteNodes_hasNode, hc]
    simp

/-- C5 witness: deleting a concrete node makes `hasNode` false on it, and
the Detach equation holds at a concrete state and change. -/
theorem applyDetach_matches_spec_witness :
    (sampleView.deleteNodes [0]).hasNode 0 = false ∧
    applyDetach sampleState { source := sampleBadRange, destination := none } =
      specDetach sampleState { source := sampleBadRange, destination := none } :=
  ⟨applyDetach_matches_spec.2.2 sampleView [0] 0 (by decide),
   applyDetach_matches_spec.1 sampleState _⟩

/-- C8: `applySetValue` implements the specification's SetValue semantics
exactly: an absent node is Invalid with nothing changed; otherwise only the
named node's record is replaced, the explicit-null sentinel removes the
payload field, a concrete payload sets it, and identifier, definition and
traits are preserved. -/
theorem applySetValue_matches_spec :
    (∀ (st : TxState) (c : SetValueChange), applySetValue st c = specSetValue st c) ∧
    (∀ (st : TxState) (c : SetValueChange), st.view.hasNode c.nodeToModify = false →
      applySetValue st c = (.invalid, st)) ∧
    (∀ (st : TxState) (c : SetValueChange) (x : NodeId), x ≠ c.nodeToModify →
      (applySetValue st c).2.view.nodes.lookup x = st.view.nodes.lookup x) ∧
    (∀ (st : TxState) (c : SetValueChange), st.view.hasNode c.nodeToModify = true →
      c.payload = none → (applySetValue st c).1 = .applied ∧
        (applySetValue st c).2.view.hasPayload c.nodeToModify = false) ∧
    (∀ (st : TxState) (c : SetValueChange) (p : Payload),
      st.view.hasNode c.nodeToModify = true → c.payload = some p →
        (applySetValue st c).1 = .applied ∧
        (applySetValue st c).2.view.getPayload c.nodeToModify = some p) ∧
    (∀ (st : TxState) (c : SetValueChange) (n : SnapshotNode),
      st.view.nodes.lookup c.nodeToModify = some n →
        ∃ n', (applySetValue st c).2.view.nodes.lookup c.nodeToModify = some n' ∧
          n'.identifier = n.identifier ∧ n'.definition = n.definition ∧
          n'.traits = n.traits) := by
  refine ⟨?_, ?_, ?_, ?_, ?_, ?_⟩
  · intro st c
    cases hl : st.view.nodes.lookup c.nodeToModify with
    | none =>
        simp [applySetValue, specSetValue, hl, Snapshot.hasNode, Snapshot.getSnapshotNode?]
    | some n =>
        simp [applySetValue, specSetValue, hl, Snapshot.hasNode, Snapshot.getSnapshotNode?]
  · intro st c h
    unfold Snapshot.hasNode at h
    cases hl : st.view.nodes.lookup c.nodeToModify with
    | none => simp [applySetValue, hl]
    | some n => rw [hl] at h; simp at h
  · intro st c x hx
    cases hl : st.view.nodes.lookup c.nodeToModify with
    | none => simp [applySetValue, hl]
    | some n =>
        simp only [applySetValue, hl]
        cases hp : c.payload with
        | none => exact replaceNodeData_lookup_ne st.view _ hx
        | some p => exact replaceNodeData_lookup_ne st.view _ hx
  · intro st c hn hp
    unfold Snapshot.hasNode at hn
    cases hl : st.view.nodes.lookup c.nodeToModify with
    | none => rw [hl] at hn; simp at hn
    | some n =>
        constructor
        · simp [applySetValue, hl]
        · simp only [applySetValue, hl, hp]
          unfold Snapshot.hasPayload Snapshot.getPayload
          rw [replaceNodeData_lookup_self, hl]
          simp
  · intro st c p hn hp
    unfold Snapshot.hasNode at hn
    cases hl : st.view.nodes.lookup c.nodeToModify with
    | none => rw [hl] at hn; simp at hn
    | some n =>
        constructor
        · simp [applySetValue, hl]
        · simp only [applySetValue, hl, hp]
          unfold Snapshot.getPayload
          rw [replaceNodeData_lookup_self, hl]
          simp
  · intro st c n hl
    cases hp : c.payload with
    | none =>
        refine ⟨{ n with payload := none }, ?_, rfl, rfl, rfl⟩
        simp only [applySetValue, hl, hp]
        rw [replaceNodeData_lookup_self, hl]
        simp
    | some p =>
        refine ⟨{ n with payload := some p }, ?_, rfl, rfl, rfl⟩
        simp only [applySetValue, hl, hp]
        rw [replaceNodeData_lookup_self, hl]
        simp

/-- C8 witness: on concrete states — an absent node is Invalid; a non-null
payload lands in the node's record; the null sentinel clears the payload
field. -/
theorem applySetValue_matches_spec_witness :
    applySetValue sampleState { nodeToModify := 5, payload := some 1 } =
      (.invalid, sampleState) ∧
    (applySetValue sampleState { nodeToModify := 0, payload := some 9 }).2.view.getPayload 0 =
      some 9 ∧
    (applySetValue sampleState { nodeToModify := 0, payload := none }).2.view.hasPayload 0 =
      false :=
  ⟨applySetValue_matches_spec.2.1 sampleState _ (by decide),
   (applySetValue_matches_spec.2.2.2.2.1 sampleState _ 9 (by decide) rfl).2,
   (applySetValue_matches_spec.2.2.2.1 sampleState _ (by decide) rfl).2⟩

theorem insertSnapshotNodes_nil (s : Snapshot) : s.insertSnapshotNodes [] = s := by
  simp [Snapshot.insertSnapshotNodes]

/-- C10: a Build with an empty source and a fresh destination applies,
leaves the view unchanged (no node is inserted), and records the empty
sequence under the destination — an entry that still trips the close-time
policy (`validateOnClose` is Malformed on the resulting state until it is
consumed). -/
theorem applyBuild_empty_source (st : TxState) (c : BuildChange) (hs : c.source = [])
    (hk : st.detached.hasKey c.destination = false) :
    applyBuild st c =
      some (.applied, { view := st.view, detached := st.detached.setKey c.destination [] }) ∧
    validateOnClose { view := st.view, detached := st.detached.setKey c.destination [] } =
      .malformed := by
  constructor
  · have h1 : applyBuild st c = some (.applied,
        { view := st.view.insertSnapshotNodes [],
          detached := st.detached.setKey c.destination [] }) := by
      unfold applyBuild
      rw [if_neg (by simp [hk])]
      rw [hs]
      rfl
    rw [insertSnapshotNodes_nil] at h1
    exact h1
  · unfold validateOnClose
    rw [if_pos ?_]
    show (st.detached.setKey c.destination []).length ≠ 0
    unfold Registry.setKey
    rw [if_neg (by simp [hk])]
    simp

/-- C10 witness: a concrete empty Build against `sampleState`. -/
theorem applyBuild_empty_source_witness :
    applyBuild sampleState { source := [], destination := 4 } =
      some (.applied, { view := sampleView, detached := [(4, [])] }) ∧
    validateOnClose { view := sampleView, detached := [(4, [])] } = .malformed := by
  have h := applyBuild_empty_source sampleState { source := [], destination := 4 } rfl (by decide)
  exact h

/-- A snapshot whose only node is 2, for exercising the id-already-present
condition. -/
def dupView : Snapshot := { root := 2, nodes := [(2, ⟨2, 0, [], none⟩)] }

/-- Transaction state over `dupView` with an empty registry. -/
def dupState : TxState := { view := dupView, detached := [] }

/-- A Build source carrying both failure conditions: identifier 1 appears
twice inline, and identifier 2 is already present in `dupView`. -/
def dupBuildSource : List EditNode :=
  [.node 1 0 [] none, .node 1 0 [] none, .node 2 0 [] none]

/-- The Build change over `dupBuildSource`. -/
def dupBuild : BuildChange := { source := dupBuildSource, destination := 5 }

/-- C2 counterexample: a Build whose source trips both the
duplicate-in-build and the id-already-present condition, yet `applyBuild`
returns Invalid, not Malformed — the worklist pops from the end, meets node
2 (present in the view) first, and halts before ever seeing the duplicate,
so Malformed does not dominate. -/
theorem applyBuild_dominance_counterexample :
    dupView.hasNode 2 = true ∧ 2 ∈ inlineIds dupBuildSource ∧
    ¬ (inlineIds dupBuildSource).Nodup ∧
    (applyBuild dupState dupBuild).map Prod.fst = some EditResult.invalid ∧
    EditResult.invalid ≠ EditResult.malformed := by
  refine ⟨by decide, by decide, by decide, by decide, by decide⟩

/-- C2 amended: a Build whose source both duplicates an inline identifier
and holds an inline identifier already present in the view never applies —
the result is Malformed or Invalid, whichever condition the early-halting
traversal reaches first. -/
theorem applyBuild_both_conditions_fail (st : TxState) (c : BuildChange) (r : EditResult)
    (st' : TxState) (h : applyBuild st c = some (r, st'))
    (hdup : ¬ (inlineIds c.source).Nodup)
    (hpresent : ∃ i ∈ inlineIds c.source, st.view.hasNode i = true) :
    r = EditResult.malformed ∨ r = EditResult.invalid := by
  cases r with
  | malformed => exact Or.inl rfl
  | invalid => exact Or.inr rfl
  | applied =>
      exfalso
      by_cases hk : st.detached.hasKey c.destination = true
      · rw [applyBuild, if_pos hk] at h
        simp at h
      · rw [applyBuild, if_neg hk] at h
        split at h
        next newIds ctx hcr =>
          split at h
          · simp at h
          · split at h
            · simp at h
            · split at h
              · exact Option.noConfusion h
              · next ids heqIds =>
                  unfold createSnapshotNodesForTree at hcr
                  split at hcr
                  · next ctx1 heqScan =>
                      cases hcr
                  · next tl un ctx1 heqScan =>
                      split at hcr
                      · next ctx2 heqLoop =>
                          cases hcr
                      · next u ctx2 heqLoop =>
                          cases hcr
                          cases u
                          have master := buildLoop_applied st.view _ heqLoop
                          have hnd : (wlInlineIds un).Nodup :=
                            (wlInlineIds_reverse_perm un).nodup_iff.mp master.2.1
                          rw [scanSequence_ids heqScan] at hnd
                          exact hdup hnd

/-- C2 amended witness: at the concrete both-conditions Build, the result
is Malformed or Invalid. -/
theorem applyBuild_both_conditions_fail_witness :
    EditResult.invalid = EditResult.malformed ∨ EditResult.invalid = EditResult.invalid :=
  applyBuild_both_conditions_fail dupState dupBuild EditResult.invalid
    { view := dupView, detached := [] } (by decide) (by decide)
    ⟨2, by decide, by decide⟩

theorem applyInsert_failure_frame {st : TxState} {c : InsertChange} {r : EditResult}
    {st' : TxState} (h : applyInsert st c = (r, st')) (hr : r ≠ EditResult.applied) :
    st' = st := by
  simp only [applyInsert] at h
  split at h
  · cases h; rfl
  · split at h
    · cases h; rfl
    · cases h; exact (hr rfl).elim

theorem applyDetach_failure_frame {st : TxState} {c : DetachChange} {r : EditResult}
    {st' : TxState} (h : applyDetach st c = (r, st')) (hr : r ≠ EditResult.applied) :
    st' = st := by
  simp only [applyDetach] at h
  split at h
  · cases h; rfl
  · split at h
    · split at h
      · cases h; rfl
      · cases h; exact (hr rfl).elim
    · cases h; exact (hr rfl).elim

theorem applyConstraint_state_eq {st : TxState} {c : ConstraintChange} {r : EditResult}
    {st' : TxState} (h : applyConstraint st c = some (r, st')) : st' = st := by
  simp only [applyConstraint] at h
  split at h
  · exact Option.noConfusion h
  · split at h
    · exact Option.noConfusion h
    · split at h
      · cases h; rfl
      · split at h
        · cases h; rfl
        · split at h
          · cases h; rfl
          · split at h
            · cases h; rfl
            · cases h; rfl

theorem applySetValue_failure_frame {st : TxState} {c : SetValueChange} {r : EditResult}
    {st' : TxState} (h : applySetValue st c = (r, st')) (hr : r ≠ EditResult.applied) :
    st' = st := by
  simp only [applySetValue] at h
  split at h
  · cases h; rfl
  · cases h; exact (hr rfl).elim

/-- The state over `dupView` holding detached sequence 7, consumed by the
failing Build below. -/
def consumeState : TxState := { view := dupView, detached := [(7, [9])] }

/-- A Build that references detached sequence 7 and then trips the
duplicate-in-build condition. -/
def consumeBuild : BuildChange :=
  { source := [.ref 7, .node 1 0 [] none, .node 1 0 [] none], destination := 8 }

/-- C3 counterexample: this failing Build returns Malformed, yet the
registry is not "exactly as it was before": the detached sequence 7 it
referenced was consumed during the traversal and is gone. -/
theorem applyBuild_failure_registry_counterexample :
    consumeState.detached.lookup 7 = some [9] ∧
    (applyBuild consumeState consumeBuild).map Prod.fst = some EditResult.malformed ∧
    (applyBuild consumeState consumeBuild).map (fun x => x.2.detached.lookup 7) = some none ∧
    (applyBuild consumeState consumeBuild).map (fun x => x.2.view) = some consumeState.view := by
  refine ⟨by decide, by decide, by decide, by decide⟩

/-- C3 amended: a non-Applied apply leaves the view untouched and leaves
the registry a restriction of the prior registry (no entry added or
modified); for every kind other than Build the registry is exactly
unchanged, while a failing Build has already consumed (removed from the
registry) the detached sequences it referenced before the failure. -/
theorem dispatchChange_failure_frame (st : TxState) (c : Change) (r : EditResult)
    (st' : TxState) (h : dispatchChange st c = some (r, st')) (hr : r ≠ EditResult.applied) :
    st'.view = st.view ∧
    (∀ k v, st'.detached.lookup k = some v → st.detached.lookup k = some v) ∧
    (∀ i, c = Change.insert i → st'.detached = st.detached) ∧
    (∀ d, c = Change.detach d → st'.detached = st.detached) ∧
    (∀ cn, c = Change.constraint cn → st'.detached = st.detached) ∧
    (∀ sv, c = Change.setValue sv → st'.detached = st.detached) := by
  cases c with
  | build b =>
      simp only [dispatchChange] at h
      have hmain : st'.view = st.view ∧
          (∀ k v, st'.detached.lookup k = some v → st.detached.lookup k = some v) := by
        by_cases hk : st.detached.hasKey b.destination = true
        · rw [applyBuild, if_pos hk] at h
          cases h
          exact ⟨rfl, fun k v hv => hv⟩
        · rw [applyBuild, if_neg hk] at h
          split at h
          next newIds ctx hcr =>
            split at h
            · cases h
              exact ⟨rfl, fun k v hv => createSnapshotNodesForTree_detachedSub hcr k v hv⟩
            · split at h
              · cases h
                exact ⟨rfl, fun k v hv => createSnapshotNodesForTree_detachedSub hcr k v hv⟩
              · split at h
                · exact Option.noConfusion h
                · cases h; exact (hr rfl).elim
      refine ⟨hmain.1, hmain.2, ?_, ?_, ?_, ?_⟩
      · intro i heq; cases heq
      · intro d heq; cases heq
      · intro cn heq; cases heq
      · intro sv heq; cases heq
  | insert i =>
      simp only [dispatchChange] at h
      have hst : st' = st := applyInsert_failure_frame (Option.some.inj h) hr
      subst hst
      refine ⟨rfl, fun k v hv => hv, ?_, ?_, ?_, ?_⟩
      · intro i2 heq; rfl
      · intro d heq; cases heq
      · intro cn heq; cases heq
      · intro sv heq; cases heq
  | detach d =>
      simp only [dispatchChange] at h
      have hst : st' = st := applyDetach_failure_frame (Option.some.inj h) hr
      subst hst
      refine ⟨rfl, fun k v hv => hv, ?_, ?_, ?_, ?_⟩
      · intro i heq; cases heq
      · intro d2 heq; rfl
      · intro cn heq; cases heq
      · intro sv heq; cases heq
  | constraint cn =>
      simp only [dispatchChange] at h
      have hst : st' = st := applyConstraint_state_eq h
      subst hst
      refine ⟨rfl, fun k v hv => hv, ?_, ?_, ?_, ?_⟩
      · intro i heq; cases heq
      · intro d heq; cases heq
      · intro cn2 heq; rfl
      · intro sv heq; cases heq
  | setValue sv =>
      simp only [dispatchChange] at h
      have hst : st' = st := applySetValue_failure_frame (Option.some.inj h) hr
      subst hst
      refine ⟨rfl, fun k v hv => hv, ?_, ?_, ?_, ?_⟩
      · intro i heq; cases heq
      · intro d heq; cases heq
      · intro cn heq; cases heq
      · intro sv2 heq; rfl

/-- An Insert change whose source is not in the registry. -/
def missInsert : InsertChange := { source := 9, destination := ⟨.before, none, none⟩ }

/-- C3 amended witness: a concrete failing Insert leaves view and registry
unchanged. -/
theorem dispatchChange_failure_frame_witness :
    sampleState.view = sampleState.view ∧ sampleState.detached = sampleState.detached :=
  ⟨(dispatchChange_failure_frame sampleState (Change.insert missInsert) EditResult.malformed
      sampleState (by decide) (by decide)).1,
   (dispatchChange_failure_frame sampleState (Change.insert missInsert) EditResult.malformed
      sampleState (by decide) (by decide)).2.2.1 missInsert rfl⟩
